import Mathlib

/-!
Verification of the PixelPrompt agent lifecycle and inference orchestration
subsystem.  The definitions below are a shallow embedding of the Python
sources: `src/entities.py` (the Agent behavioural state machine),
`src/engine.py` (the response router and error classification) and
`src/llm_client.py` (the queue-and-worker orchestrator).  Positions and
timers are modelled as real numbers; the animation code uses the real
sine function, so those definitions are necessarily noncomputable.  The
orchestrator and string-classification layers are fully computable.
-/

namespace PixelPrompt

/-- Planar vector with real coordinates, modelling pygame.math.Vector2. -/
structure Vec2 where
  x : ℝ
  y : ℝ

/-- Componentwise vector addition. -/
def Vec2.add (a b : Vec2) : Vec2 := ⟨a.x + b.x, a.y + b.y⟩

/-- Componentwise vector subtraction. -/
def Vec2.sub (a b : Vec2) : Vec2 := ⟨a.x - b.x, a.y - b.y⟩

/-- Scalar multiplication of a vector. -/
def Vec2.smul (c : ℝ) (v : Vec2) : Vec2 := ⟨c * v.x, c * v.y⟩

/-- Euclidean length of a vector (pygame Vector2.length). -/
noncomputable def Vec2.len (v : Vec2) : ℝ := Real.sqrt (v.x ^ 2 + v.y ^ 2)

/-- Distance from a to b (pygame Vector2.distance_to). -/
noncomputable def Vec2.distance_to (a b : Vec2) : ℝ := (b.sub a).len

/-- Total normalization: divide by length.  Division by zero in the reals
yields the junk value 0, so this is the mathematical meaning of the pygame
normalize call in the branches where the code has already guarded the
length away from zero. -/
noncomputable def Vec2.normalize (v : Vec2) : Vec2 := ⟨v.x / v.len, v.y / v.len⟩

/-- Checked normalization: pygame Vector2.normalize raises ValueError on a
zero-length vector, modelled here by none. -/
noncomputable def Vec2.normalizeChecked (v : Vec2) : Option Vec2 :=
  if v.len = 0 then none else some v.normalize

/-- Agent behavioural states, from entities.AgentState. -/
inductive AgentState where
  | idle
  | thinking
  | talking
  | error
deriving DecidableEq, Repr

/-- World boundaries dictionary (min_x, min_y, max_x, max_y) consumed by
Agent._pick_random_target. -/
structure WorldBounds where
  min_x : ℝ
  min_y : ℝ
  max_x : ℝ
  max_y : ℝ

/-- A conversation turn: a dict with role and content keys. -/
structure Message where
  role : String
  content : String
deriving DecidableEq, Repr

/-- Random draws consumed by one call into the agent update code:
random.randint(-64, 64) twice in _pick_random_target and
random.uniform(3.0, 5.0) in _update_idle.  The draws are passed in
explicitly so the embedding is a deterministic function. -/
structure Rnd where
  offset_x : ℤ
  offset_y : ℤ
  wait_threshold : ℝ

/-- The Agent record from entities.Agent.  The fields conversation_history
and max_history are attached to agent objects by the engine layer in the
source (duck typing); they are carried here on the same record. -/
structure Agent where
  id : String
  provider_name : String
  model : String
  state : AgentState
  state_timer : ℝ
  position : Vec2
  target_position : Vec2
  move_speed : ℝ
  world_bounds : WorldBounds
  bob_offset : ℝ
  bob_base_y : ℝ
  error_base_pos : Vec2
  pace_direction : ℤ
  conversation_history : List Message
  max_history : ℕ

/-- Agent._pick_random_target: random offset within 64 units of the current
position, clamped into world bounds with a 20 unit margin.  Only the
target position changes. -/
noncomputable def pickRandomTarget (rnd : Rnd) (a : Agent) : Agent :=
  let new_target := a.position.add ⟨(rnd.offset_x : ℝ), (rnd.offset_y : ℝ)⟩
  let margin : ℝ := 20
  { a with target_position :=
      ⟨max (a.world_bounds.min_x + margin) (min (a.world_bounds.max_x - margin) new_target.x),
       max (a.world_bounds.min_y + margin) (min (a.world_bounds.max_y - margin) new_target.y)⟩ }

/-- Agent.set_state: always sets the new state and resets state_timer to 0,
then performs the state-specific one-time setup. -/
noncomputable def setState (a : Agent) (new_state : AgentState) (rnd : Rnd) : Agent :=
  let a1 := { a with state := new_state, state_timer := 0 }
  match new_state with
  | .thinking =>
      { a1 with pace_direction := 1, target_position := a1.position.add ⟨64, 0⟩ }
  | .talking => { a1 with bob_base_y := a1.position.y, bob_offset := 0 }
  | .error => { a1 with error_base_pos := a1.position }
  | .idle => pickRandomTarget rnd a1

/-- Agent._update_idle: move toward the target when more than 1 unit away
(without overshooting), otherwise re-target after the random wait. -/
noncomputable def updateIdle (dt : ℝ) (rnd : Rnd) (a : Agent) : Agent :=
  let distance := a.position.distance_to a.target_position
  if 1 < distance then
    let direction := (a.target_position.sub a.position).normalize
    let move_distance := a.move_speed * dt
    if distance < move_distance then { a with position := a.target_position }
    else { a with position := a.position.add (Vec2.smul move_distance direction) }
  else if rnd.wait_threshold < a.state_timer then
    { pickRandomTarget rnd a with state_timer := 0 }
  else a

/-- Agent._update_thinking: pace at 3x speed; on arrival flip the pace
direction and re-target from the current position. -/
noncomputable def updateThinking (dt : ℝ) (a : Agent) : Agent :=
  let pace_speed := a.move_speed * 3
  let distance := a.position.distance_to a.target_position
  if 1 < distance then
    let direction := (a.target_position.sub a.position).normalize
    let move_distance := pace_speed * dt
    if distance < move_distance then { a with position := a.target_position }
    else { a with position := a.position.add (Vec2.smul move_distance direction) }
  else
    let new_dir := -a.pace_direction
    { a with pace_direction := new_dir,
             target_position := ⟨a.position.x + 64 * (new_dir : ℝ), a.target_position.y⟩ }

/-- Agent._update_talking: accumulate the bob phase and recompute
position.y from the captured base, never by incrementing y. -/
noncomputable def updateTalking (dt : ℝ) (a : Agent) : Agent :=
  let new_offset := a.bob_offset + 4 * dt
  { a with bob_offset := new_offset,
           position := ⟨a.position.x, a.bob_base_y + Real.sin new_offset * 2⟩ }

/-- Agent._update_error: shake around the captured base position while the
state timer is below 2 seconds, then return to idle. -/
noncomputable def updateError (rnd : Rnd) (a : Agent) : Agent :=
  if a.state_timer < 2 then
    { a with position := ⟨a.error_base_pos.x + 3 * Real.sin (a.state_timer * 20),
                          a.error_base_pos.y⟩ }
  else setState a .idle rnd

/-- Agent.update: advance the state timer by dt, then dispatch to the
state-specific update. -/
noncomputable def update (dt : ℝ) (rnd : Rnd) (a : Agent) : Agent :=
  let a1 := { a with state_timer := a.state_timer + dt }
  match a1.state with
  | .idle => updateIdle dt rnd a1
  | .thinking => updateThinking dt a1
  | .talking => updateTalking dt a1
  | .error => updateError rnd a1

/-- Checked variant of _update_idle in which the pygame normalize call can
raise (none) on a zero-length vector. -/
noncomputable def updateIdleChecked (dt : ℝ) (rnd : Rnd) (a : Agent) : Option Agent :=
  let distance := a.position.distance_to a.target_position
  if 1 < distance then
    match (a.target_position.sub a.position).normalizeChecked with
    | none => none
    | some direction =>
      let move_distance := a.move_speed * dt
      if distance < move_distance then some { a with position := a.target_position }
      else some { a with position := a.position.add (Vec2.smul move_distance direction) }
  else if rnd.wait_threshold < a.state_timer then
    some { pickRandomTarget rnd a with state_timer := 0 }
  else some a

/-- Checked variant of _update_thinking in which normalize can raise. -/
noncomputable def updateThinkingChecked (dt : ℝ) (a : Agent) : Option Agent :=
  let pace_speed := a.move_speed * 3
  let distance := a.position.distance_to a.target_position
  if 1 < distance then
    match (a.target_position.sub a.position).normalizeChecked with
    | none => none
    | some direction =>
      let move_distance := pace_speed * dt
      if distance < move_distance then some { a with position := a.target_position }
      else some { a with position := a.position.add (Vec2.smul move_distance direction) }
  else
    let new_dir := -a.pace_direction
    some { a with pace_direction := new_dir,
                  target_position := ⟨a.position.x + 64 * (new_dir : ℝ), a.target_position.y⟩ }

/-- Checked variant of Agent.update: none models an uncaught exception
escaping the per-tick update. -/
noncomputable def updateChecked (dt : ℝ) (rnd : Rnd) (a : Agent) : Option Agent :=
  let a1 := { a with state_timer := a.state_timer + dt }
  match a1.state with
  | .idle => updateIdleChecked dt rnd a1
  | .thinking => updateThinkingChecked dt a1
  | .talking => some (updateTalking dt a1)
  | .error => some (updateError rnd a1)

/-- Iterate Agent.update over a list of (dt, random draw) ticks. -/
noncomputable def applyUpdates (l : List (ℝ × Rnd)) (a : Agent) : Agent :=
  match l with
  | [] => a
  | (dt, rnd) :: rest => applyUpdates rest (update dt rnd a)

/-- Total elapsed time of a tick list. -/
def sumDts (l : List (ℝ × Rnd)) : ℝ := (l.map Prod.fst).sum

/-- Speech bubble lifetime state from ui.SpeechBubble: an age accumulated
by update(dt) against a fixed 10 second lifetime. -/
structure SpeechBubble where
  age : ℝ
  lifetime : ℝ

/-- SpeechBubble constructor: age 0, lifetime 10 seconds. -/
def mkSpeechBubble : SpeechBubble := { age := 0, lifetime := 10 }

/-- SpeechBubble.update: the age accumulates dt. -/
def bubbleUpdate (dt : ℝ) (b : SpeechBubble) : SpeechBubble :=
  { b with age := b.age + dt }

/-- SpeechBubble.is_finished: the bubble should disappear once its age has
reached its lifetime. -/
def bubbleIsFinished (b : SpeechBubble) : Prop := b.lifetime ≤ b.age

/-- Iterated bubble updates. -/
def bubbleAfter (l : List ℝ) (b : SpeechBubble) : SpeechBubble :=
  match l with
  | [] => b
  | dt :: rest => bubbleAfter rest (bubbleUpdate dt b)

/-- A queued inference request, the dict built by LLMClient.send_message. -/
structure Request where
  agent_id : String
  provider : String
  model : String
  message : String
  history : List Message
deriving DecidableEq, Repr

/-- A completed inference response, the dict built by the worker loop:
status success carries the text, status error carries the error string. -/
inductive Response where
  | success (agent_id : String) (text : String)
  | error (agent_id : String) (error_msg : String)
deriving DecidableEq, Repr

/-- The agent_id field of a response. -/
def Response.agentId : Response → String
  | .success a _ => a
  | .error a _ => a

/-- True on responses with status error. -/
def Response.isError : Response → Bool
  | .success _ _ => false
  | .error _ _ => true

/-- Python slice h[-(n):] as used by the history trim: for n = 0 the slice
h[0:] is the whole list, otherwise the last n elements. -/
def lastSlice (n : ℕ) (h : List Message) : List Message :=
  if n = 0 then h else h.drop (h.length - n)

/-- The history trim from GameEngine._send_message_to_agent: when the
history exceeds max_history * 2 entries, keep the first system message (if
any) followed by the last max_history * 2 entries. -/
def trimHistory (max_history : ℕ) (h : List Message) : List Message :=
  if max_history * 2 < h.length then
    (match h.find? (fun m => m.role == "system") with
      | some s => [s]
      | none => []) ++ lastSlice (max_history * 2) h
  else h

/-- GameEngine._send_message_to_agent, restricted to the selected agent:
append the user turn, trim, transition to Thinking, and queue a request
whose history field is a snapshot of the trimmed history. -/
noncomputable def sendMessageToAgent (a : Agent) (message : String) (rnd : Rnd) :
    Agent × Request :=
  let h2 := trimHistory a.max_history (a.conversation_history ++ [⟨"user", message⟩])
  (setState { a with conversation_history := h2 } .thinking rnd,
   { agent_id := a.id, provider := a.provider_name, model := a.model,
     message := message, history := h2 })

/-- Substring test on character lists: true when pat occurs contiguously
inside the second list (Python `pat in s`). -/
def containsSub (pat : List Char) : List Char → Bool
  | [] => pat.isEmpty
  | c :: t => pat.isPrefixOf (c :: t) || containsSub pat t

/-- Substring test of pat inside the character list s, the Python
expression `pat in s`. -/
def hasSub (s : List Char) (pat : String) : Bool := containsSub pat.data s

/-- Python str.lower of a string, as a character list (error.lower()). -/
def lowerData (s : String) : List Char := s.data.map Char.toLower

/-- GameEngine._format_error: map a raw error string onto a short
user-facing message by case-insensitive keyword matching, falling back to
the raw message truncated to 50 characters. -/
def formatError (error : String) : String :=
  let error_lower := lowerData error
  if hasSub error_lower "connectionerror" || hasSub error_lower "cannot reach" then
    "Can\x27t reach LLM service"
  else if hasSub error_lower "timeouterror" || hasSub error_lower "timed out" then
    "Request timed out"
  else if hasSub error.data "404" || hasSub error_lower "not found" then
    "Model not found"
  else if hasSub error_lower "api key" || hasSub error.data "401" || hasSub error.data "403" then
    "Invalid API key"
  else "Error: " ++ error.take 50

/-- GameEngine._process_llm_responses, restricted to applying one response
to its resolved agent: on success, create a bubble, transition to Talking
and append the assistant turn; on error, create an error bubble from the
classified message and transition to Error. -/
noncomputable def applyResponse (a : Agent) (r : Response) (rnd : Rnd) : Agent :=
  match r with
  | .success _ text =>
      let a1 := setState a .talking rnd
      { a1 with conversation_history := a1.conversation_history ++ [⟨"assistant", text⟩] }
  | .error _ _ => setState a .error rnd

/-- Outcome of one streaming call of a provider: the chunks yielded before
the stream either completed (failure none) or raised with the given
exception message after the partial chunks. -/
structure StreamResult where
  chunks : List String
  failure : Option String

/-- A provider instance as seen by LLMClient: a display name, the result
of the is_available health probe, and the streaming send_message call as a
function of the message list and model. -/
structure Provider where
  name : String
  available : Bool
  stream : List Message → String → StreamResult

/-- The exceptions LLMClient._call_llm can raise. -/
inductive CallError where
  | unknownProvider (provider_name : String)
  | notAvailable (provider_name : String)
  | streamFailure (msg : String)
  | emptyResponse
deriving DecidableEq, Repr

/-- str(e) for each exception, as placed into the error response. -/
def CallError.toMessage : CallError → String
  | .unknownProvider p => "Unknown provider: " ++ p
  | .notAvailable p => p ++ " is not available"
  | .streamFailure m => m
  | .emptyResponse => "Empty response from provider"

/-- The message list built inside LLMClient._call_llm: a copy of the
request history with the request message appended as a user turn. -/
def buildMessages (req : Request) : List Message :=
  req.history ++ [⟨"user", req.message⟩]

/-- LLMClient._call_llm: resolve the provider, check availability, stream
and accumulate chunks, and reject an empty accumulated response.  Every
raise in the source is an error value here. -/
def callLLM (providers : List (String × Provider)) (req : Request) :
    Except CallError String :=
  match providers.lookup req.provider with
  | none => .error (.unknownProvider req.provider)
  | some provider =>
    if provider.available = false then .error (.notAvailable provider.name)
    else
      let result := provider.stream (buildMessages req) req.model
      match result.failure with
      | some m => .error (.streamFailure m)
      | none =>
        let full_response := String.join result.chunks
        if full_response = "" then .error .emptyResponse
        else .ok full_response

/-- The response the worker loop enqueues for one request: the try/except
around _call_llm converts an exception into a status error response with
str(e), and a normal return into a status success response. -/
def workerStep (providers : List (String × Provider)) (req : Request) : Response :=
  match callLLM providers req with
  | .ok text => .success req.agent_id text
  | .error e => .error req.agent_id e.toMessage

/-- LLMClient._worker_loop processing a whole request sequence: each
request is taken from the queue in order and produces exactly one
response; the loop continues after an error. -/
def workerLoop (providers : List (String × Provider)) : List Request → List Response
  | [] => []
  | req :: rest => workerStep providers req :: workerLoop providers rest

/-- Shared queue state of the orchestrator: the pending FIFO request queue
and the responses enqueued so far, in enqueue order. -/
structure OrchState where
  pending : List Request
  completed : List Response
deriving DecidableEq, Repr

/-- One iteration of the single worker: dequeue the oldest pending request
and enqueue its response.  With an empty queue the state is unchanged (the
1 second Empty timeout branch of the loop). -/
def orchStep (providers : List (String × Provider)) (s : OrchState) : OrchState :=
  match s.pending with
  | [] => s
  | req :: rest => { pending := rest, completed := s.completed ++ [workerStep providers req] }

/-- n iterations of the single worker. -/
def orchRun (providers : List (String × Provider)) (s : OrchState) : ℕ → OrchState
  | 0 => s
  | n + 1 => orchRun providers (orchStep providers s) n

/-- Test fixture: a provider whose stream raises after yielding a partial
chunk. -/
def failingProvider : Provider :=
  { name := "Ollama", available := true,
    stream := fun _ _ => { chunks := ["He"], failure := some "boom" } }

/-- Test fixture: a provider whose stream yields two chunks and completes. -/
def okProvider : Provider :=
  { name := "Ollama", available := true,
    stream := fun _ _ => { chunks := ["Hel", "lo"], failure := none } }

/-- Test fixture: a provider whose availability probe reports false. -/
def downProvider : Provider :=
  { name := "Ollama", available := false,
    stream := fun _ _ => { chunks := [], failure := none } }

/-- Test fixture: the provider registry used by the concrete witnesses. -/
def testProviders : List (String × Provider) :=
  [("bad", failingProvider), ("good", okProvider), ("down", downProvider)]

/-- Test fixture: a request for a given agent and provider name. -/
def mkTestRequest (aid pname : String) : Request :=
  { agent_id := aid, provider := pname, model := "m", message := "hi", history := [] }

/-- The worker loop is the per-request step mapped over the queue. -/
theorem workerLoop_eq_map (providers : List (String × Provider)) (reqs : List Request) :
    workerLoop providers reqs = reqs.map (workerStep providers) := by
  induction reqs with
  | nil => rfl
  | cons r rest ih => simp [workerLoop, ih]

/-- Every response carries the agent id of its request. -/
theorem workerStep_agentId (providers : List (String × Provider)) (req : Request) :
    (workerStep providers req).agentId = req.agent_id := by
  unfold workerStep
  cases callLLM providers req <;> rfl

/-- C1: for every request processed by the worker, any exception raised by
the availability check or the streaming call is caught and turned into
exactly one error response carrying the stringified exception, and the
worker continues: the i-th response always exists and is exactly the
processing of the i-th request, independent of failures elsewhere. -/
theorem worker_converts_exceptions (providers : List (String × Provider))
    (reqs : List Request) :
    (workerLoop providers reqs).length = reqs.length ∧
    ∀ (i : ℕ) (req : Request), reqs[i]? = some req →
      (workerLoop providers reqs)[i]? = some (workerStep providers req) ∧
      ∀ e : CallError, callLLM providers req = .error e →
        (workerLoop providers reqs)[i]? =
          some (Response.error req.agent_id e.toMessage) := by
  refine ⟨by simp [workerLoop_eq_map], ?_⟩
  intro i req hi
  have hmap : (workerLoop providers reqs)[i]? = some (workerStep providers req) := by
    simp [workerLoop_eq_map, hi]
  refine ⟨hmap, ?_⟩
  intro e he
  rw [hmap]
  unfold workerStep
  rw [he]

/-- Witness for C1: a stream that raises after a partial chunk yields one
error response with the raw message, and the next request in the queue is
still processed to success. -/
theorem worker_converts_exceptions_witness :
    (workerLoop testProviders [mkTestRequest "a1" "bad", mkTestRequest "a2" "good"])[0]? =
      some (Response.error "a1" "boom") ∧
    (workerLoop testProviders [mkTestRequest "a1" "bad", mkTestRequest "a2" "good"])[1]? =
      some (Response.success "a2" "Hello") := by
  constructor
  · exact ((worker_converts_exceptions testProviders
      [mkTestRequest "a1" "bad", mkTestRequest "a2" "good"]).2 0 (mkTestRequest "a1" "bad")
      rfl).2 (.streamFailure "boom") rfl
  · have h := ((worker_converts_exceptions testProviders
      [mkTestRequest "a1" "bad", mkTestRequest "a2" "good"]).2 1 (mkTestRequest "a2" "good")
      rfl).1
    rw [h]
    decide

/-- Characterization of a run of the single worker from a freshly
submitted queue. -/
theorem orchRun_eq (providers : List (String × Provider)) :
    ∀ (n : ℕ) (p : List Request) (c : List Response),
      orchRun providers ⟨p, c⟩ n =
        ⟨p.drop n, c ++ (p.take n).map (workerStep providers)⟩ := by
  intro n
  induction n with
  | zero => intro p c; simp [orchRun]
  | succ n ih =>
    intro p c
    cases p with
    | nil =>
      have h := ih [] c
      simp [orchRun, orchStep] at h ⊢
      exact h
    | cons r rest =>
      simp only [orchRun, orchStep, ih rest (c ++ [workerStep providers r])]
      simp

/-- C2: requests are dequeued strictly FIFO by the single worker, so after
any number of worker iterations the completed responses are exactly the
first dequeued requests processed in submission order, and the response
agent ids appear in exactly the order the requests were submitted. -/
theorem requests_processed_fifo (providers : List (String × Provider))
    (reqs : List Request) (n : ℕ) :
    (orchRun providers ⟨reqs, []⟩ n).completed =
      (reqs.take n).map (workerStep providers) ∧
    (orchRun providers ⟨reqs, []⟩ n).completed.map Response.agentId =
      (reqs.take n).map Request.agent_id ∧
    (orchRun providers ⟨reqs, []⟩ n).pending = reqs.drop n := by
  rw [orchRun_eq]
  refine ⟨by simp, ?_, by simp⟩
  show ((reqs.take n).map (workerStep providers)).map Response.agentId =
    (reqs.take n).map Request.agent_id
  rw [List.map_map]
  exact List.map_congr_left fun r _ => workerStep_agentId providers r

/-- C9: the error-string classification maps raw messages matching the
unreachable pattern onto the fixed unreachable string, timeout patterns
onto the timeout string, not-found patterns onto the not-found string,
credential patterns onto the invalid-key string, everything else onto the
truncated raw message, and the result is always a short string of at most
57 characters. -/
theorem format_error_classification (e : String) :
    ((hasSub (lowerData e) "connectionerror" || hasSub (lowerData e) "cannot reach") = true →
      formatError e = "Can\x27t reach LLM service") ∧
    ((hasSub (lowerData e) "connectionerror" || hasSub (lowerData e) "cannot reach") = false →
      (hasSub (lowerData e) "timeouterror" || hasSub (lowerData e) "timed out") = true →
      formatError e = "Request timed out") ∧
    ((hasSub (lowerData e) "connectionerror" || hasSub (lowerData e) "cannot reach") = false →
      (hasSub (lowerData e) "timeouterror" || hasSub (lowerData e) "timed out") = false →
      (hasSub e.data "404" || hasSub (lowerData e) "not found") = true →
      formatError e = "Model not found") ∧
    ((hasSub (lowerData e) "connectionerror" || hasSub (lowerData e) "cannot reach") = false →
      (hasSub (lowerData e) "timeouterror" || hasSub (lowerData e) "timed out") = false →
      (hasSub e.data "404" || hasSub (lowerData e) "not found") = false →
      (hasSub (lowerData e) "api key" || hasSub e.data "401" || hasSub e.data "403") = true →
      formatError e = "Invalid API key") ∧
    ((hasSub (lowerData e) "connectionerror" || hasSub (lowerData e) "cannot reach") = false →
      (hasSub (lowerData e) "timeouterror" || hasSub (lowerData e) "timed out") = false →
      (hasSub e.data "404" || hasSub (lowerData e) "not found") = false →
      (hasSub (lowerData e) "api key" || hasSub e.data "401" || hasSub e.data "403") = false →
      formatError e = "Error: " ++ e.take 50) ∧
    (formatError e).length ≤ 57 := by
  refine ⟨?_, ?_, ?_, ?_, ?_, ?_⟩
  · intro h1; simp [formatError, h1]
  · intro h1 h2; simp [formatError, h1, h2]
  · intro h1 h2 h3; simp [formatError, h1, h2, h3]
  · intro h1 h2 h3 h4; simp [formatError, h1, h2, h3, h4]
  · intro h1 h2 h3 h4; simp [formatError, h1, h2, h3, h4]
  · by_cases h1 : (hasSub (lowerData e) "connectionerror" || hasSub (lowerData e) "cannot reach") = true
    · simp only [formatError, h1, if_true]; decide
    by_cases h2 : (hasSub (lowerData e) "timeouterror" || hasSub (lowerData e) "timed out") = true
    · simp only [formatError, h1, h2, if_true, if_false]; decide
    by_cases h3 : (hasSub e.data "404" || hasSub (lowerData e) "not found") = true
    · simp only [formatError, h1, h2, h3, if_true, if_false]; decide
    by_cases h4 : (hasSub (lowerData e) "api key" || hasSub e.data "401" || hasSub e.data "403") = true
    · simp only [formatError, h1, h2, h3, h4, if_true, if_false]; decide
    · have hfe : formatError e = "Error: " ++ e.take 50 := by
        simp only [formatError]
        rw [if_neg h1, if_neg h2, if_neg h3, if_neg h4]
      rw [hfe, String.length_append]
      have h5 : (e.take 50).length ≤ 50 := by
        rw [← String.length_data]
        simp
      have h6 : ("Error: " : String).length = 7 := rfl
      omega

/-- Witness for C9: a concrete raw string of each class maps to its
user-facing string, and a long unmatched raw string is truncated. -/
theorem format_error_classification_witness :
    formatError "ConnectionError: refused" = "Can\x27t reach LLM service" ∧
    formatError "request Timed Out after 30s" = "Request timed out" ∧
    formatError "HTTP 404" = "Model not found" ∧
    formatError "401 unauthorized" = "Invalid API key" ∧
    formatError "weird failure" = "Error: " ++ ("weird failure" : String).take 50 := by
  refine ⟨?_, ?_, ?_, ?_, ?_⟩
  · exact (format_error_classification "ConnectionError: refused").1 (by decide)
  · exact (format_error_classification "request Timed Out after 30s").2.1 (by decide) (by decide)
  · exact (format_error_classification "HTTP 404").2.2.1 (by decide) (by decide) (by decide)
  · exact (format_error_classification "401 unauthorized").2.2.2.1 (by decide) (by decide)
      (by decide) (by decide)
  · exact (format_error_classification "weird failure").2.2.2.2.1 (by decide) (by decide)
      (by decide) (by decide)

/-- Test fixture: fixed random draws. -/
def rnd0 : Rnd := { offset_x := 7, offset_y := -5, wait_threshold := 4 }

/-- Test fixture: an agent as spawned from the default configuration. -/
def baseAgent : Agent :=
  { id := "agent_001", provider_name := "ollama", model := "llama3.2:3b",
    state := .idle, state_timer := 0,
    position := ⟨640, 360⟩, target_position := ⟨640, 360⟩, move_speed := 50,
    world_bounds := { min_x := 0, min_y := 0, max_x := 2000, max_y := 2000 },
    bob_offset := 0, bob_base_y := 360, error_base_pos := ⟨640, 360⟩,
    pace_direction := 1, conversation_history := [], max_history := 10 }

/-- Test fixture: an agent whose history already exceeds its pair cap. -/
def overfullAgent : Agent :=
  { baseAgent with
    max_history := 1,
    conversation_history :=
      [⟨"system", "s"⟩, ⟨"user", "u1"⟩, ⟨"assistant", "a1"⟩,
       ⟨"user", "u2"⟩, ⟨"assistant", "a2"⟩] }

/-- The trim rule keeps at most one found system turn plus the last
max_history * 2 entries. -/
theorem trimHistory_length_le (max_history : ℕ) (h : List Message)
    (hmax : 1 ≤ max_history) :
    (trimHistory max_history h).length ≤ max_history * 2 + 1 := by
  unfold trimHistory lastSlice
  by_cases hlen : max_history * 2 < h.length
  · rw [if_pos hlen]
    have hn : ¬ (max_history * 2 = 0) := by omega
    rw [if_neg hn, List.length_append, List.length_drop]
    cases hf : h.find? (fun m => m.role == "system") <;> simp [hf] <;> omega
  · rw [if_neg hlen]
    omega

/-- The trim rule preserves a leading system turn as the head. -/
theorem trimHistory_head_system (max_history : ℕ) (s : Message) (t : List Message)
    (hs : s.role = "system") :
    (trimHistory max_history (s :: t)).head? = some s := by
  unfold trimHistory
  by_cases hlen : max_history * 2 < (s :: t).length
  · rw [if_pos hlen]
    have hf : (s :: t).find? (fun m => m.role == "system") = some s :=
      List.find?_cons_of_pos _ (by simp [hs])
    rw [hf]
    simp
  · rw [if_neg hlen]
    rfl

/-- C6 (amended): on a successful response the router appends the
assistant turn to the history without re-applying the trim rule and
transitions the agent to Talking; the trim rule, which bounds the history
by max_history pairs plus a preserved leading system turn, is applied only
on the user-turn append before dispatching a request, where the agent
transitions to Thinking and the request snapshots the trimmed history. -/
theorem response_router_history_rules (a : Agent) (text m : String) (rnd : Rnd) :
    (applyResponse a (.success a.id text) rnd).conversation_history =
      a.conversation_history ++ [⟨"assistant", text⟩] ∧
    (applyResponse a (.success a.id text) rnd).state = .talking ∧
    (sendMessageToAgent a m rnd).1.conversation_history =
      trimHistory a.max_history (a.conversation_history ++ [⟨"user", m⟩]) ∧
    (sendMessageToAgent a m rnd).1.state = .thinking ∧
    (sendMessageToAgent a m rnd).2.history =
      (sendMessageToAgent a m rnd).1.conversation_history ∧
    (1 ≤ a.max_history →
      (trimHistory a.max_history (a.conversation_history ++ [⟨"user", m⟩])).length ≤
        a.max_history * 2 + 1) ∧
    (∀ (s : Message) (t : List Message), s.role = "system" →
      (trimHistory a.max_history (s :: t)).head? = some s) := by
  refine ⟨?_, ?_, ?_, ?_, ?_, ?_, ?_⟩
  · simp [applyResponse, setState]
  · simp [applyResponse, setState]
  · simp [sendMessageToAgent, setState]
  · simp [sendMessageToAgent, setState]
  · simp [sendMessageToAgent, setState]
  · intro hmax
    exact trimHistory_length_le a.max_history _ hmax
  · intro s t hs
    exact trimHistory_head_system a.max_history s t hs

/-- Witness for C6: the trim bound and the system-head preservation at a
concrete overfull history. -/
theorem response_router_history_rules_witness :
    (trimHistory overfullAgent.max_history
      (overfullAgent.conversation_history ++ [⟨"user", "u3"⟩])).length ≤
      overfullAgent.max_history * 2 + 1 ∧
    (trimHistory overfullAgent.max_history [⟨"system", "s"⟩]).head? =
      some ⟨"system", "s"⟩ := by
  constructor
  · exact (response_router_history_rules overfullAgent "ok" "u3" rnd0).2.2.2.2.2.1 (by decide)
  · exact (response_router_history_rules overfullAgent "ok" "u3" rnd0).2.2.2.2.2.2
      ⟨"system", "s"⟩ [] rfl

/-- Counterexample for C6 as stated: a successful response applied to an
agent whose history plus the new assistant turn exceeds the cap is not
trimmed, so the history stays longer than one system turn plus
max_history pairs. -/
theorem success_response_skips_trimming :
    (applyResponse overfullAgent (.success "agent_001" "ok") rnd0).conversation_history.length = 6 ∧
    overfullAgent.max_history * 2 + 1 < 6 := by
  constructor
  · simp [applyResponse, setState, overfullAgent, baseAgent]
  · decide

/-- The trim of a history ending in a given turn still ends in that turn
(for a positive pair cap). -/
theorem trimHistory_append_last (max_history : ℕ) (hmax : 1 ≤ max_history)
    (h : List Message) (u : Message) :
    ∃ pre, trimHistory max_history (h ++ [u]) = pre ++ [u] := by
  unfold trimHistory lastSlice
  by_cases hlen : max_history * 2 < (h ++ [u]).length
  · rw [if_pos hlen]
    have hn : ¬ (max_history * 2 = 0) := by omega
    rw [if_neg hn]
    have hk2 : (h ++ [u]).length - max_history * 2 ≤ h.length := by
      rw [List.length_append]
      simp only [List.length_cons, List.length_nil]
      omega
    refine ⟨(match (h ++ [u]).find? (fun m => m.role == "system") with
      | some s => [s] | none => []) ++ h.drop ((h ++ [u]).length - max_history * 2), ?_⟩
    rw [List.drop_append_of_le_length hk2, List.append_assoc]
  · rw [if_neg hlen]
    exact ⟨h, rfl⟩

/-- C10: the message list handed to the provider contains the latest user
message twice: the engine appends the user turn to the agent history
before submitting, and the worker appends the request message again, so
the last two entries of the built message list are both the user turn. -/
theorem user_turn_duplicated (a : Agent) (m : String) (rnd : Rnd)
    (hmax : 1 ≤ a.max_history) :
    ∃ pre, buildMessages (sendMessageToAgent a m rnd).2 =
      pre ++ [⟨"user", m⟩, ⟨"user", m⟩] := by
  obtain ⟨pre, hpre⟩ :=
    trimHistory_append_last a.max_history hmax a.conversation_history ⟨"user", m⟩
  refine ⟨pre, ?_⟩
  have hh : (sendMessageToAgent a m rnd).2.history =
      trimHistory a.max_history (a.conversation_history ++ [⟨"user", m⟩]) := by
    simp [sendMessageToAgent]
  have hm : (sendMessageToAgent a m rnd).2.message = m := by
    simp [sendMessageToAgent]
  rw [buildMessages, hh, hm, hpre, List.append_assoc]
  rfl

/-- Witness for C10: the concrete message list built for the default agent
ends with the user turn twice. -/
theorem user_turn_duplicated_witness :
    ∃ pre, buildMessages (sendMessageToAgent baseAgent "hi" rnd0).2 =
      pre ++ [⟨"user", "hi"⟩, ⟨"user", "hi"⟩] :=
  user_turn_duplicated baseAgent "hi" rnd0 (by decide)

/-- One update tick in the Talking state: the timer and bob phase advance
and position.y is recomputed from the captured base. -/
theorem update_talking_eq (dt : ℝ) (rnd : Rnd) (b : Agent) (h : b.state = .talking) :
    update dt rnd b =
      { b with state_timer := b.state_timer + dt,
               bob_offset := b.bob_offset + 4 * dt,
               position := ⟨b.position.x,
                 b.bob_base_y + Real.sin (b.bob_offset + 4 * dt) * 2⟩ } := by
  obtain ⟨i, pn, mo, st, t, pos, tgt, ms, wb, bo, bb, ebp, pd, ch, mh⟩ := b
  simp only at h
  subst h
  simp [update, updateTalking]

/-- Updates never leave the Talking state. -/
theorem talking_state_absorbing :
    ∀ (l : List (ℝ × Rnd)) (b : Agent),
      b.state = .talking → (applyUpdates l b).state = .talking := by
  intro l
  induction l with
  | nil => intro b h; exact h
  | cons hd tl ih =>
    intro b h
    obtain ⟨dt, rnd⟩ := hd
    rw [applyUpdates]
    apply ih
    rw [update_talking_eq dt rnd b h]
    exact h

/-- Invariant of the Talking state: the captured base never changes and
position.y stays within the 2 pixel bob amplitude of it. -/
theorem talking_invariant (c : ℝ) :
    ∀ (l : List (ℝ × Rnd)) (b : Agent), b.state = .talking → b.bob_base_y = c →
      |b.position.y - c| ≤ 2 →
      ((applyUpdates l b).state = .talking ∧
       (applyUpdates l b).bob_base_y = c ∧
       |(applyUpdates l b).position.y - c| ≤ 2) := by
  intro l
  induction l with
  | nil => intro b h1 h2 h3; exact ⟨h1, h2, h3⟩
  | cons hd tl ih =>
    intro b h1 h2 h3
    obtain ⟨dt, rnd⟩ := hd
    rw [applyUpdates]
    apply ih
    · rw [update_talking_eq dt rnd b h1]
      exact h1
    · rw [update_talking_eq dt rnd b h1]
      exact h2
    · rw [update_talking_eq dt rnd b h1]
      show |b.bob_base_y + Real.sin (b.bob_offset + 4 * dt) * 2 - c| ≤ 2
      rw [h2]
      have hs1 := Real.neg_one_le_sin (b.bob_offset + 4 * dt)
      have hs2 := Real.sin_le_one (b.bob_offset + 4 * dt)
      rw [abs_le]
      constructor <;> linarith

/-- C4: for an agent that entered Talking and receives any number of
update ticks, the captured bob base is unchanged and position.y never
drifts more than the 2 pixel bob amplitude from it. -/
theorem talking_bob_never_drifts (a : Agent) (rnd : Rnd) (l : List (ℝ × Rnd)) :
    (applyUpdates l (setState a .talking rnd)).bob_base_y = a.position.y ∧
    |(applyUpdates l (setState a .talking rnd)).position.y -
      (applyUpdates l (setState a .talking rnd)).bob_base_y| ≤ 2 := by
  have h := talking_invariant a.position.y l (setState a .talking rnd)
    (by simp [setState]) (by simp [setState]) (by simp [setState])
  refine ⟨h.2.1, ?_⟩
  rw [h.2.1]
  exact h.2.2

/-- The age of a bubble after iterated updates is its starting age plus
the elapsed time; the lifetime never changes. -/
theorem bubbleAfter_age (l : List ℝ) (b : SpeechBubble) :
    (bubbleAfter l b).age = b.age + l.sum ∧ (bubbleAfter l b).lifetime = b.lifetime := by
  induction l generalizing b with
  | nil => simp [bubbleAfter]
  | cons dt tl ih =>
    have h := ih (bubbleUpdate dt b)
    refine ⟨?_, ?_⟩
    · rw [bubbleAfter, h.1]
      show b.age + dt + tl.sum = b.age + (dt + tl.sum)
      ring
    · rw [bubbleAfter, h.2]
      rfl

/-- C5 (code divergence, at the failing input): an agent placed in Talking
is still in Talking after 100 one-second ticks, even though the speech
bubble created alongside it has long reported finished (its 10 second
lifetime elapsed after 10 of those seconds): no update path and no engine
path ever exits Talking on the speech-finished signal or after any
maximum duration. -/
theorem talking_never_exits :
    (applyUpdates (List.replicate 100 ((1 : ℝ), rnd0))
      (setState baseAgent .talking rnd0)).state = .talking ∧
    bubbleIsFinished (bubbleAfter (List.replicate 100 (1 : ℝ)) mkSpeechBubble) := by
  constructor
  · apply talking_state_absorbing
    simp [setState]
  · have h := bubbleAfter_age (List.replicate 100 (1 : ℝ)) mkSpeechBubble
    unfold bubbleIsFinished
    rw [h.1, h.2]
    simp [mkSpeechBubble, List.sum_replicate]
    norm_num

/-- The checked idle update never raises: the distance guard keeps the
normalize call away from the zero vector. -/
theorem updateIdleChecked_eq (dt : ℝ) (rnd : Rnd) (a : Agent) :
    updateIdleChecked dt rnd a = some (updateIdle dt rnd a) := by
  unfold updateIdleChecked updateIdle Vec2.normalizeChecked
  by_cases hd : 1 < a.position.distance_to a.target_position
  · rw [if_pos hd, if_pos hd]
    have hlen : ¬ ((a.target_position.sub a.position).len = 0) := by
      intro h0
      have he : a.position.distance_to a.target_position =
          (a.target_position.sub a.position).len := rfl
      rw [he, h0] at hd
      norm_num at hd
    rw [if_neg hlen]
    exact (apply_ite some _ _ _).symm
  · rw [if_neg hd, if_neg hd]
    split_ifs <;> rfl

/-- The checked thinking update never raises, for the same reason. -/
theorem updateThinkingChecked_eq (dt : ℝ) (a : Agent) :
    updateThinkingChecked dt a = some (updateThinking dt a) := by
  unfold updateThinkingChecked updateThinking Vec2.normalizeChecked
  by_cases hd : 1 < a.position.distance_to a.target_position
  · rw [if_pos hd, if_pos hd]
    have hlen : ¬ ((a.target_position.sub a.position).len = 0) := by
      intro h0
      have he : a.position.distance_to a.target_position =
          (a.target_position.sub a.position).len := rfl
      rw [he, h0] at hd
      norm_num at hd
    rw [if_neg hlen]
    exact (apply_ite some _ _ _).symm
  · rw [if_neg hd, if_neg hd]

/-- The checked per-tick update never raises, in every state. -/
theorem updateChecked_eq_update (dt : ℝ) (rnd : Rnd) (a : Agent) :
    updateChecked dt rnd a = some (update dt rnd a) := by
  obtain ⟨i, pn, mo, st, t, pos, tgt, ms, wb, bo, bb, ebp, pd, ch, mh⟩ := a
  cases st
  case idle => exact updateIdleChecked_eq dt rnd _
  case thinking => exact updateThinkingChecked_eq dt _
  case talking => rfl
  case error => rfl

/-- Distance from a point to itself is zero. -/
theorem Vec2.distance_to_self (p : Vec2) : p.distance_to p = 0 := by
  simp [Vec2.distance_to, Vec2.sub, Vec2.len]

/-- C7: calling update(dt) with the target position equal to the current
position never raises in any state: the checked update (in which the
pygame normalize call can raise on a zero-length vector) returns the
total update, and in the moving states the zero-distance case takes the
already-arrived branch, leaving the position unchanged. -/
theorem update_never_crashes_at_zero_distance (a : Agent) (dt : ℝ) (rnd : Rnd)
    (h : a.target_position = a.position) :
    updateChecked dt rnd a = some (update dt rnd a) ∧
    ((a.state = .idle ∨ a.state = .thinking) → (update dt rnd a).position = a.position) := by
  refine ⟨updateChecked_eq_update dt rnd a, ?_⟩
  intro hs
  have hdist : ({ a with state_timer := a.state_timer + dt } : Agent).position.distance_to
      ({ a with state_timer := a.state_timer + dt } : Agent).target_position = 0 := by
    show a.position.distance_to a.target_position = 0
    rw [h]
    exact Vec2.distance_to_self a.position
  cases hs with
  | inl hidle =>
    obtain ⟨i, pn, mo, st, t, pos, tgt, ms, wb, bo, bb, ebp, pd, ch, mh⟩ := a
    simp only at hidle
    subst hidle
    simp only [update, updateIdle]
    rw [if_neg (by rw [hdist]; norm_num)]
    split_ifs <;> simp [pickRandomTarget]
  | inr hthink =>
    obtain ⟨i, pn, mo, st, t, pos, tgt, ms, wb, bo, bb, ebp, pd, ch, mh⟩ := a
    simp only at hthink
    subst hthink
    simp only [update, updateThinking]
    rw [if_neg (by rw [hdist]; norm_num)]

/-- Witness for C7: the default agent already at its target updates
without raising and without moving. -/
theorem update_never_crashes_witness :
    updateChecked 1 rnd0 baseAgent = some (update 1 rnd0 baseAgent) ∧
    (update 1 rnd0 baseAgent).position = baseAgent.position :=
  ⟨(update_never_crashes_at_zero_distance baseAgent 1 rnd0 rfl).1,
   (update_never_crashes_at_zero_distance baseAgent 1 rnd0 rfl).2 (Or.inl rfl)⟩

/-- C8: the random target is always clamped into the world bounds shrunk
by the 20 unit safety margin, for every current position and every random
offset, whenever the configured bounds leave room for the margin. -/
theorem random_target_within_bounds (a : Agent) (rnd : Rnd)
    (hx : a.world_bounds.min_x + 20 ≤ a.world_bounds.max_x - 20)
    (hy : a.world_bounds.min_y + 20 ≤ a.world_bounds.max_y - 20) :
    a.world_bounds.min_x + 20 ≤ (pickRandomTarget rnd a).target_position.x ∧
    (pickRandomTarget rnd a).target_position.x ≤ a.world_bounds.max_x - 20 ∧
    a.world_bounds.min_y + 20 ≤ (pickRandomTarget rnd a).target_position.y ∧
    (pickRandomTarget rnd a).target_position.y ≤ a.world_bounds.max_y - 20 := by
  refine ⟨le_max_left _ _, max_le hx (min_le_left _ _),
    le_max_left _ _, max_le hy (min_le_left _ _)⟩

/-- Test fixture: an agent standing outside the world bounds. -/
def outsideAgent : Agent := { baseAgent with position := ⟨5000, -100⟩ }

/-- Witness for C8: an agent outside the bounds still gets a clamped
target. -/
theorem random_target_within_bounds_witness :
    outsideAgent.world_bounds.min_x + 20 ≤
      (pickRandomTarget rnd0 outsideAgent).target_position.x ∧
    (pickRandomTarget rnd0 outsideAgent).target_position.x ≤
      outsideAgent.world_bounds.max_x - 20 ∧
    outsideAgent.world_bounds.min_y + 20 ≤
      (pickRandomTarget rnd0 outsideAgent).target_position.y ∧
    (pickRandomTarget rnd0 outsideAgent).target_position.y ≤
      outsideAgent.world_bounds.max_y - 20 :=
  random_target_within_bounds outsideAgent rnd0
    (by norm_num [outsideAgent, baseAgent])
    (by norm_num [outsideAgent, baseAgent])

/-- One update tick in the Error state before the 2 second mark: shake
around the captured base position. -/
theorem update_error_shake (dt : ℝ) (rnd : Rnd) (b : Agent) (h : b.state = .error)
    (ht : b.state_timer + dt < 2) :
    update dt rnd b =
      { b with state_timer := b.state_timer + dt,
               position := ⟨b.error_base_pos.x + 3 * Real.sin ((b.state_timer + dt) * 20),
                            b.error_base_pos.y⟩ } := by
  obtain ⟨i, pn, mo, st, t, pos, tgt, ms, wb, bo, bb, ebp, pd, ch, mh⟩ := b
  simp only at h ht
  subst h
  simp [update, updateError, ht]

/-- One update tick in the Error state that reaches the 2 second mark:
transition back to Idle. -/
theorem update_error_exit (dt : ℝ) (rnd : Rnd) (b : Agent) (h : b.state = .error)
    (ht : 2 ≤ b.state_timer + dt) :
    update dt rnd b = setState { b with state_timer := b.state_timer + dt } .idle rnd := by
  obtain ⟨i, pn, mo, st, t, pos, tgt, ms, wb, bo, bb, ebp, pd, ch, mh⟩ := b
  simp only at h ht
  subst h
  simp [update, updateError, not_lt.mpr ht]

/-- Transitioning to Idle resets the timer, re-picks only the target, and
leaves position and captured error base untouched. -/
theorem setState_idle_fields (b : Agent) (rnd : Rnd) :
    (setState b .idle rnd).state = .idle ∧ (setState b .idle rnd).state_timer = 0 ∧
    (setState b .idle rnd).position = b.position ∧
    (setState b .idle rnd).error_base_pos = b.error_base_pos := by
  simp [setState, pickRandomTarget]

/-- Invariant of the Error state under ticks that keep the timer below
2 seconds: still Error, base unchanged, timer equal to the elapsed time,
position.y at the base and position.x within the 3 pixel shake
amplitude. -/
theorem error_shake_invariant (p : Vec2) :
    ∀ (l : List (ℝ × Rnd)) (b : Agent), b.state = .error → b.error_base_pos = p →
      0 ≤ b.state_timer → (∀ d ∈ l.map Prod.fst, 0 ≤ d) →
      b.state_timer + sumDts l < 2 →
      b.position.y = p.y → |b.position.x - p.x| ≤ 3 →
      ((applyUpdates l b).state = .error ∧
       (applyUpdates l b).error_base_pos = p ∧
       (applyUpdates l b).state_timer = b.state_timer + sumDts l ∧
       (applyUpdates l b).position.y = p.y ∧
       |(applyUpdates l b).position.x - p.x| ≤ 3) := by
  intro l
  induction l with
  | nil =>
    intro b h1 h2 h3 h4 h5 h6 h7
    refine ⟨h1, h2, by simp [applyUpdates, sumDts], h6, h7⟩
  | cons hd tl ih =>
    intro b h1 h2 h3 h4 h5 h6 h7
    obtain ⟨dt, rnd⟩ := hd
    have hdt0 : 0 ≤ dt := h4 dt (by simp)
    have h4t : ∀ x ∈ tl.map Prod.fst, 0 ≤ x := by
      intro x hx
      apply h4
      simp only [List.map_cons, List.mem_cons]
      exact Or.inr hx
    have htl0 : 0 ≤ sumDts tl := List.sum_nonneg h4t
    have hsum : sumDts ((dt, rnd) :: tl) = dt + sumDts tl := by simp [sumDts]
    rw [hsum] at h5
    have hstep : b.state_timer + dt < 2 := by linarith
    have hb2 := update_error_shake dt rnd b h1 hstep
    rw [applyUpdates, hb2]
    have hs1 := Real.neg_one_le_sin ((b.state_timer + dt) * 20)
    have hs2 := Real.sin_le_one ((b.state_timer + dt) * 20)
    have H := ih
      { b with
        state_timer := b.state_timer + dt,
        position := ⟨b.error_base_pos.x + 3 * Real.sin ((b.state_timer + dt) * 20),
                     b.error_base_pos.y⟩ }
      h1 h2 (by show 0 ≤ b.state_timer + dt; linarith)
      h4t
      (by show b.state_timer + dt + sumDts tl < 2; linarith)
      (by show b.error_base_pos.y = p.y; rw [h2])
      (by show |b.error_base_pos.x + 3 * Real.sin ((b.state_timer + dt) * 20) - p.x| ≤ 3
          rw [h2, abs_le]
          constructor <;> linarith)
    refine ⟨H.1, H.2.1, ?_, H.2.2.2.1, H.2.2.2.2⟩
    rw [H.2.2.1, hsum]
    show b.state_timer + dt + sumDts tl = b.state_timer + (dt + sumDts tl)
    ring

/-- C3 (amended): entering Error captures the base position; under any
nonnegative ticks, on the first tick at which the elapsed state_timer
reaches 2.0 seconds the agent transitions to Idle with its timer reset,
position.y restored to the captured base, and position.x within the
3 pixel shake amplitude of the captured base (the last shake offset is
retained, not snapped back to the base). -/
theorem error_exits_to_idle_near_base (a : Agent) (r0 : Rnd) (l : List (ℝ × Rnd))
    (d : ℝ) (r1 : Rnd)
    (hnn : ∀ x ∈ l.map Prod.fst, 0 ≤ x)
    (hlt : sumDts l < 2) (hge : 2 ≤ sumDts l + d) :
    (update d r1 (applyUpdates l (setState a .error r0))).state = .idle ∧
    (update d r1 (applyUpdates l (setState a .error r0))).state_timer = 0 ∧
    (update d r1 (applyUpdates l (setState a .error r0))).position.y = a.position.y ∧
    |(update d r1 (applyUpdates l (setState a .error r0))).position.x - a.position.x| ≤ 3 ∧
    (update d r1 (applyUpdates l (setState a .error r0))).error_base_pos = a.position := by
  have hb0s : (setState a .error r0).state = .error := by simp [setState]
  have hb0e : (setState a .error r0).error_base_pos = a.position := by simp [setState]
  have hb0t : (setState a .error r0).state_timer = 0 := by simp [setState]
  have hb0p : (setState a .error r0).position = a.position := by simp [setState]
  have H := error_shake_invariant a.position l (setState a .error r0) hb0s hb0e
    (by rw [hb0t]) hnn (by rw [hb0t]; simpa using hlt)
    (by rw [hb0p]) (by rw [hb0p]; simp)
  have hexit : 2 ≤ (applyUpdates l (setState a .error r0)).state_timer + d := by
    rw [H.2.2.1, hb0t]
    simpa using hge
  have heq := update_error_exit d r1 _ H.1 hexit
  rw [heq]
  have hf := setState_idle_fields
    { (applyUpdates l (setState a .error r0)) with
      state_timer := (applyUpdates l (setState a .error r0)).state_timer + d } r1
  refine ⟨hf.1, hf.2.1, ?_, ?_, ?_⟩
  · rw [hf.2.2.1]
    exact H.2.2.2.1
  · rw [hf.2.2.1]
    exact H.2.2.2.2
  · rw [hf.2.2.2]
    exact H.2.1

/-- Witness for C3 (amended): a single 2 second tick moves a fresh Error
agent to Idle at its base height and within the shake amplitude. -/
theorem error_exits_to_idle_near_base_witness :
    (update 2 rnd0 (applyUpdates [] (setState baseAgent .error rnd0))).state = .idle ∧
    (update 2 rnd0 (applyUpdates [] (setState baseAgent .error rnd0))).position.y =
      baseAgent.position.y ∧
    |(update 2 rnd0 (applyUpdates [] (setState baseAgent .error rnd0))).position.x -
      baseAgent.position.x| ≤ 3 := by
  have h := error_exits_to_idle_near_base baseAgent rnd0 [] 2 rnd0 (by simp)
    (by norm_num [sumDts]) (by norm_num [sumDts])
  exact ⟨h.1, h.2.2.1, h.2.2.2.1⟩

/-- Counterexample for C3 as stated: after exactly 2.0 seconds of elapsed
state_timer (ticks 0.1 and 1.9) the agent is Idle, but its position.x is
the last shake offset away from the captured error base, not equal to
it. -/
theorem error_exit_retains_shake_offset :
    (update 1.9 rnd0 (update 0.1 rnd0 (setState baseAgent .error rnd0))).state = .idle ∧
    (update 1.9 rnd0 (update 0.1 rnd0 (setState baseAgent .error rnd0))).position.x ≠
      (setState baseAgent .error rnd0).error_base_pos.x := by
  have hb0s : (setState baseAgent .error rnd0).state = .error := by simp [setState]
  have hb0t : (setState baseAgent .error rnd0).state_timer = 0 := by simp [setState]
  have h1 := update_error_shake 0.1 rnd0 (setState baseAgent .error rnd0) hb0s
    (by rw [hb0t]; norm_num)
  have hb1s : (update 0.1 rnd0 (setState baseAgent .error rnd0)).state = .error := by
    rw [h1]
    exact hb0s
  have hb1t : (update 0.1 rnd0 (setState baseAgent .error rnd0)).state_timer = 0.1 := by
    rw [h1]
    show (setState baseAgent .error rnd0).state_timer + 0.1 = 0.1
    rw [hb0t]
    norm_num
  have h2 := update_error_exit 1.9 rnd0 _ hb1s (by rw [hb1t]; norm_num)
  have hsin : 0 < Real.sin 2 := by
    apply Real.sin_pos_of_pos_of_lt_pi
    · norm_num
    · have := Real.pi_gt_three
      linarith
  constructor
  · rw [h2]
    exact (setState_idle_fields _ _).1
  · rw [h2]
    rw [(setState_idle_fields _ _).2.2.1]
    show (update 0.1 rnd0 (setState baseAgent .error rnd0)).position.x ≠ _
    rw [h1]
    show (setState baseAgent .error rnd0).error_base_pos.x +
        3 * Real.sin (((setState baseAgent .error rnd0).state_timer + 0.1) * 20) ≠
      (setState baseAgent .error rnd0).error_base_pos.x
    rw [hb0t]
    have harg : ((0 : ℝ) + 0.1) * 20 = 2 := by norm_num
    rw [harg]
    intro hcontra
    nlinarith

end PixelPrompt
